import Mathlib

/-!
Verification of the `ansi-csi` library (`src/csi.rs`).

The library formats ANSI CSI escape sequences onto a byte sink and parses
the DSR (device status report) cursor-position reply from a byte source.
We shallowly embed the source:

* every formatting method of the `Csi` trait becomes a Lean function
  returning the `String` it writes on a successful write (the Rust
  functions each perform one `write_fmt` and propagate its error with `?`);
* `write_fmt`'s fallibility is modelled by `writeOut`, parameterised by
  whether the sink accepts the write;
* the byte-level reply parser inside `dsr` becomes `dsrLoop`, a structural
  recursion over the list of input bytes that also records the bytes it
  consumed as events; `usize` arithmetic is modelled as `Nat` reduced
  modulo `2 ^ 64` (a 64-bit target, release-mode wrapping semantics);
* `dsr` itself becomes a function of two booleans (does the query write
  succeed, does the flush succeed) and the input byte list, returning the
  trace of observable events (`echo_off`, write, flush, byte reads,
  `echo_on`) together with its `Option (Nat × Nat)` result.
-/

namespace AnsiCsi

/-- Modulus of `usize` arithmetic on a 64-bit target. -/
def usizeMod : Nat := 2 ^ 64

/-- Observable events performed by `dsr`: toggling terminal echo,
writing a string to the output sink, flushing it, and reading one byte
from the input source. -/
inductive Event where
  | echoOff : Event
  | echoOn : Event
  | write (s : String) : Event
  | flush : Event
  | readByte (b : Nat) : Event
deriving DecidableEq, BEq

/-- The string produced by the `csi!` macro: `ESC [` followed by the body. -/
def csiStr (body : String) : String := "\x1b[" ++ body

/-- The DSR query written by `dsr`: `csi!("6n")`, i.e. `ESC[6n`. -/
def dsrQueryStr : String := csiStr "6n"

/-- The byte-read loop of `dsr` (src/csi.rs lines 268-286), over the state
`(row, col, tmp)`: digit bytes accumulate `tmp = tmp * 10 + digit` in
`usize` arithmetic, `;` (0x3b) commits `tmp` to `row` and resets `tmp`,
`R` (0x52) commits `tmp` to `col` and stops, everything else is skipped.
Returns the list of read-events together with the final `(row, col)`. -/
def dsrLoop : List Nat → Nat → Nat → Nat → List Event × Nat × Nat
  | [], row, col, _tmp => ([], row, col)
  | b :: bs, row, col, tmp =>
    if 0x30 ≤ b ∧ b ≤ 0x39 then
      let r := dsrLoop bs row col ((tmp * 10 + (b - 0x30)) % usizeMod)
      (Event.readByte b :: r.1, r.2)
    else if b = 0x3b then
      let r := dsrLoop bs tmp col 0
      (Event.readByte b :: r.1, r.2)
    else if b = 0x52 then
      ([Event.readByte b], row, tmp)
    else
      let r := dsrLoop bs row col tmp
      (Event.readByte b :: r.1, r.2)

/-- The `dsr` trait method (src/csi.rs lines 262-289).  `writeOk` is
whether `write_fmt` of the query succeeds, `flushOk` whether `flush`
succeeds; `input` is the sequence of bytes the reader yields.  `echo_off`
is called first; on a failed write or flush the `?` operator returns
`None` at once; otherwise the reply loop runs, `echo_on` is called and
`Some (row, col)` is returned. -/
def dsr (writeOk flushOk : Bool) (input : List Nat) : List Event × Option (Nat × Nat) :=
  match writeOk, flushOk with
  | true, true =>
    let r := dsrLoop input 0 0 0
    (Event.echoOff :: Event.write dsrQueryStr :: Event.flush :: r.1 ++ [Event.echoOn],
      some r.2)
  | true, false => ([Event.echoOff, Event.write dsrQueryStr, Event.flush], none)
  | false, _ => ([Event.echoOff, Event.write dsrQueryStr], none)

/-- The prefix of the input actually consumed by the reply loop:
everything up to and including the first `R` (0x52) byte. -/
def consumed : List Nat → List Nat
  | [] => []
  | b :: bs => if b = 0x52 then [b] else b :: consumed bs

/-- Phase of the specification's reply-parsing state machine. -/
inductive ReportPhase where
  | readingRow : ReportPhase
  | readingCol : ReportPhase
deriving DecidableEq

/-- State of the specification's reply-parsing state machine. -/
structure ReportState where
  phase : ReportPhase
  acc : Nat
  row : Nat
  col : Nat
deriving DecidableEq

/-- One step of the state machine exactly as the claim words it: a digit
byte extends the accumulator, `;` commits the accumulator as `row`, resets
it and moves to `readingCol`, `R` commits the accumulator as `col` and
stops (signalled by `Sum.inr`), any other byte is skipped. -/
def specReportStep (b : Nat) (s : ReportState) : ReportState ⊕ (Nat × Nat) :=
  if 0x30 ≤ b ∧ b ≤ 0x39 then
    Sum.inl { s with acc := (s.acc * 10 + (b - 0x30)) % usizeMod }
  else if b = 0x3b then
    Sum.inl { s with row := s.acc, acc := 0, phase := ReportPhase.readingCol }
  else if b = 0x52 then
    Sum.inr (s.row, s.acc)
  else
    Sum.inl s

/-- Running the specification's state machine over the input; if the input
ends before `R`, the stored `(row, col)` is returned. -/
def specReportRun : List Nat → ReportState → Nat × Nat
  | [], s => (s.row, s.col)
  | b :: bs, s =>
    match specReportStep b s with
    | Sum.inl t => specReportRun bs t
    | Sum.inr p => p

/-- Initial state of the machine: `readingRow` with accumulator 0. -/
def specReportInit : ReportState :=
  { phase := ReportPhase.readingRow, acc := 0, row := 0, col := 0 }

lemma specReportRun_eq_dsrLoop (input : List Nat) :
    ∀ p a r c, specReportRun input ⟨p, a, r, c⟩ = (dsrLoop input r c a).2 := by
  induction input with
  | nil => intro p a r c; rfl
  | cons b bs ih =>
    intro p a r c
    by_cases hd : 0x30 ≤ b ∧ b ≤ 0x39
    · simp only [specReportRun, specReportStep, dsrLoop, if_pos hd]
      exact ih _ _ _ _
    · by_cases hsep : b = 0x3b
      · simp only [specReportRun, specReportStep, dsrLoop, if_neg hd, if_pos hsep]
        exact ih _ _ _ _
      · by_cases hR : b = 0x52
        · simp only [specReportRun, specReportStep, dsrLoop, if_neg hd, if_neg hsep,
            if_pos hR]
        · simp only [specReportRun, specReportStep, dsrLoop, if_neg hd, if_neg hsep,
            if_neg hR]
          exact ih _ _ _ _

lemma dsrLoop_events (input : List Nat) :
    ∀ r c t, (dsrLoop input r c t).1 = (consumed input).map Event.readByte := by
  induction input with
  | nil => intro r c t; rfl
  | cons b bs ih =>
    intro r c t
    by_cases hd : 0x30 ≤ b ∧ b ≤ 0x39
    · have hR : ¬ b = 0x52 := by omega
      simp only [dsrLoop, consumed, if_pos hd, if_neg hR, List.map_cons]
      exact congrArg _ (ih _ _ _)
    · by_cases hsep : b = 0x3b
      · have hR : ¬ b = 0x52 := by omega
        simp only [dsrLoop, consumed, if_neg hd, if_pos hsep, if_neg hR, List.map_cons]
        exact congrArg _ (ih _ _ _)
      · by_cases hR : b = 0x52
        · simp only [dsrLoop, consumed, if_neg hd, if_neg hsep, if_pos hR, List.map_cons,
            List.map_nil]
        · simp only [dsrLoop, consumed, if_neg hd, if_neg hsep, if_neg hR, List.map_cons]
          exact congrArg _ (ih _ _ _)

lemma consumed_isPrefix (input : List Nat) : consumed input <+: input := by
  induction input with
  | nil => exact List.prefix_refl _
  | cons b bs ih =>
    by_cases hR : b = 0x52
    · simp only [consumed, if_pos hR]
      exact (List.prefix_cons_inj b).mpr List.nil_prefix
    · simp only [consumed, if_neg hR]
      exact (List.prefix_cons_inj b).mpr ih

/-- C1: with the query write and flush succeeding, `dsr` first writes the
DSR query `ESC[6n` and flushes, then reads a prefix of the input byte by
byte, and its result is `some` of the row/column pair computed by the
claim's state machine (initial state `readingRow`, accumulator 0; digits
accumulate, `;` commits the accumulator as `row` and resets it, `R`
commits it as `col` and stops). -/
theorem dsr_query_flush_then_machine (input : List Nat) :
    (dsr true true input).1
      = Event.echoOff :: Event.write dsrQueryStr :: Event.flush
          :: (consumed input).map Event.readByte ++ [Event.echoOn]
    ∧ consumed input <+: input
    ∧ (dsr true true input).2 = some (specReportRun input specReportInit) := by
  refine ⟨?_, consumed_isPrefix input, ?_⟩
  · simp only [dsr, dsrLoop_events input 0 0 0]
  · simp only [dsr, specReportInit, specReportRun_eq_dsrLoop input]

/-- C2: the claim fails on the code.  At the failing input — the query
write (or flush) to the output sink fails — `echo_off` has already run,
but the `?` operator returns `None` at once and `echo_on` is never
called: the trace holds one echo-off event and no echo-restore event. -/
theorem dsr_write_failure_skips_echo_restore :
    ((dsr false true []).1.count Event.echoOff = 1
      ∧ (dsr false true []).1.count Event.echoOn = 0
      ∧ (dsr false true []).2 = none)
    ∧ ((dsr true false []).1.count Event.echoOff = 1
      ∧ (dsr true false []).1.count Event.echoOn = 0
      ∧ (dsr true false []).2 = none) := by decide

lemma dsrLoop_col_of_no_R (input : List Nat) (h : 0x52 ∉ input) :
    ∀ r c t, (dsrLoop input r c t).2.2 = c := by
  induction input with
  | nil => intro r c t; rfl
  | cons b bs ih =>
    intro r c t
    have hb : ¬ b = 0x52 := fun hb => h (hb ▸ List.mem_cons_self b bs)
    have hbs : 0x52 ∉ bs := fun hm => h (List.mem_cons_of_mem b hm)
    by_cases hd : 0x30 ≤ b ∧ b ≤ 0x39
    · simp only [dsrLoop, if_pos hd]
      exact ih hbs _ _ _
    · by_cases hsep : b = 0x3b
      · simp only [dsrLoop, if_neg hd, if_pos hsep]
        exact ih hbs _ _ _
      · simp only [dsrLoop, if_neg hd, if_neg hsep, if_neg hb]
        exact ih hbs _ _ _

lemma dsrLoop_row_of_no_R_no_sep (input : List Nat) (h : 0x52 ∉ input)
    (h2 : 0x3b ∉ input) : ∀ r c t, (dsrLoop input r c t).2.1 = r := by
  induction input with
  | nil => intro r c t; rfl
  | cons b bs ih =>
    intro r c t
    have hb : ¬ b = 0x52 := fun hb => h (hb ▸ List.mem_cons_self b bs)
    have hb2 : ¬ b = 0x3b := fun hb => h2 (hb ▸ List.mem_cons_self b bs)
    have hbs : 0x52 ∉ bs := fun hm => h (List.mem_cons_of_mem b hm)
    have hbs2 : 0x3b ∉ bs := fun hm => h2 (List.mem_cons_of_mem b hm)
    by_cases hd : 0x30 ≤ b ∧ b ≤ 0x39
    · simp only [dsrLoop, if_pos hd]
      exact ih hbs hbs2 _ _ _
    · simp only [dsrLoop, if_neg hd, if_neg hb2, if_neg hb]
      exact ih hbs hbs2 _ _ _

/-- C3: `dsr` (with the query successfully written and flushed) returns
`some` pair on every input byte stream; if the stream ends before any `R`,
the uncommitted `col` stays 0, and if it also holds no `;`, the result is
`some (0, 0)`; in particular the empty stream (no reply at all) is
indistinguishable from the genuine reply `ESC[0;0R`. -/
theorem dsr_always_some (input : List Nat) :
    (∃ p, (dsr true true input).2 = some p)
    ∧ (0x52 ∉ input → ∃ r, (dsr true true input).2 = some (r, 0))
    ∧ (0x52 ∉ input → 0x3b ∉ input → (dsr true true input).2 = some (0, 0))
    ∧ (dsr true true []).2 = (dsr true true [0x1b, 0x5b, 0x30, 0x3b, 0x30, 0x52]).2 := by
  refine ⟨⟨(dsrLoop input 0 0 0).2, rfl⟩, ?_, ?_, by decide⟩
  · intro h
    refine ⟨(dsrLoop input 0 0 0).2.1, ?_⟩
    show some (dsrLoop input 0 0 0).2 = _
    rw [show (dsrLoop input 0 0 0).2
        = ((dsrLoop input 0 0 0).2.1, (dsrLoop input 0 0 0).2.2) from rfl,
      dsrLoop_col_of_no_R input h]
  · intro h h2
    show some (dsrLoop input 0 0 0).2 = _
    rw [show (dsrLoop input 0 0 0).2
        = ((dsrLoop input 0 0 0).2.1, (dsrLoop input 0 0 0).2.2) from rfl,
      dsrLoop_col_of_no_R input h, dsrLoop_row_of_no_R_no_sep input h h2]

/-- Witness for C3 at the concrete stream `[0x41]` (a single junk byte,
no `;`, no `R`): the result is `some (0, 0)`. -/
theorem dsr_always_some_witness :
    (dsr true true [0x41]).2 = some (0, 0) :=
  (dsr_always_some [0x41]).2.2.1 (by decide) (by decide)

/-- `_nz` (src/csi.rs lines 183-189): avoid zero, mapping 0 to 1. -/
def _nz (n : Nat) : Nat :=
  if n = 0 then 1 else n

/-- CUU (cursor up): `csi!("{}A")` applied to `_nz n`. -/
def cuu (n : Nat) : String := csiStr (toString (_nz n) ++ "A")

/-- CUD (cursor down). -/
def cud (n : Nat) : String := csiStr (toString (_nz n) ++ "B")

/-- CUF (cursor forward). -/
def cuf (n : Nat) : String := csiStr (toString (_nz n) ++ "C")

/-- CUB (cursor back). -/
def cub (n : Nat) : String := csiStr (toString (_nz n) ++ "D")

/-- CNL (cursor next line). -/
def cnl (n : Nat) : String := csiStr (toString (_nz n) ++ "E")

/-- CPL (cursor previous line). -/
def cpl (n : Nat) : String := csiStr (toString (_nz n) ++ "F")

/-- CHA (cursor horizontal absolute). -/
def cha (n : Nat) : String := csiStr (toString (_nz n) ++ "G")

/-- CUP (cursor position): `csi!("{};{}H")` applied to `_nz row`, `_nz col`. -/
def cup (row col : Nat) : String :=
  csiStr (toString (_nz row) ++ ";" ++ toString (_nz col) ++ "H")

/-- SU (scroll up). -/
def su (n : Nat) : String := csiStr (toString (_nz n) ++ "S")

/-- SD (scroll down). -/
def sd (n : Nat) : String := csiStr (toString (_nz n) ++ "T")

/-- Body of ED (erase in display) after `let n = n as usize`: range check
`n <= 3`, otherwise nothing is written. -/
def edSeq (n : Nat) : String :=
  if n ≤ 3 then csiStr (toString n ++ "J") else ""

/-- Body of EL (erase in line) after the cast: range check `n <= 2`. -/
def elSeq (n : Nat) : String :=
  if n ≤ 2 then csiStr (toString n ++ "K") else ""

/-- Body of DECSCUSR (set cursor style) after the cast: range check
`n <= 6`; note the embedded space before the final byte `q`. -/
def decscusrSeq (n : Nat) : String :=
  if n ≤ 6 then csiStr (toString n ++ " q") else ""

/-- SCP (save cursor position). -/
def scp : String := csiStr "s"

/-- RCP (restore cursor position). -/
def rcp : String := csiStr "u"

/-- SM (set mode): `n` verbatim. -/
def sm (n : Nat) : String := csiStr (toString n ++ "h")

/-- RM (reset mode): `n` verbatim. -/
def rm (n : Nat) : String := csiStr (toString n ++ "l")

/-- `EdClear` (src/csi.rs lines 15-20): modes of erase-in-display. -/
inductive EdClear where
  | FromCurToEos : EdClear
  | FromCurToBos : EdClear
  | EntireScreen : EdClear
  | EntireScreenAndDeleteAllScrollBuffer : EdClear
deriving DecidableEq

/-- Discriminant of `EdClear` (`n as usize`). -/
def EdClear.toNat : EdClear → Nat
  | .FromCurToEos => 0
  | .FromCurToBos => 1
  | .EntireScreen => 2
  | .EntireScreenAndDeleteAllScrollBuffer => 3

/-- `ElClear` (src/csi.rs lines 22-26): modes of erase-in-line. -/
inductive ElClear where
  | FromCurToEol : ElClear
  | FromCurToBol : ElClear
  | EntireLine : ElClear
deriving DecidableEq

/-- Discriminant of `ElClear`. -/
def ElClear.toNat : ElClear → Nat
  | .FromCurToEol => 0
  | .FromCurToBol => 1
  | .EntireLine => 2

/-- `DecscusrStyle` (src/csi.rs lines 115-122): cursor styles 1..6. -/
inductive DecscusrStyle where
  | BlinkingBlock : DecscusrStyle
  | SteadyBlock : DecscusrStyle
  | BlinkingUnderline : DecscusrStyle
  | SteadyUnderline : DecscusrStyle
  | BlinkingBar : DecscusrStyle
  | SteadyBar : DecscusrStyle
deriving DecidableEq

/-- Discriminant of `DecscusrStyle` (`s as usize`). -/
def DecscusrStyle.toNat : DecscusrStyle → Nat
  | .BlinkingBlock => 1
  | .SteadyBlock => 2
  | .BlinkingUnderline => 3
  | .SteadyUnderline => 4
  | .BlinkingBar => 5
  | .SteadyBar => 6

/-- The ED trait method: cast to the discriminant, then the guarded write. -/
def ed (n : EdClear) : String := edSeq n.toNat

/-- The EL trait method. -/
def el (n : ElClear) : String := elSeq n.toNat

/-- The DECSCUSR trait method. -/
def decscusr (s : DecscusrStyle) : String := decscusrSeq s.toNat

/-- `SgrColor` (src/csi.rs lines 108-113): extended 8-bit and 24-bit
colors, foreground and background; `u8` components modelled as `Nat`. -/
inductive SgrColor where
  | FgColor8bit (color : Nat) : SgrColor
  | FgColor24bit (rgb : Nat × Nat × Nat) : SgrColor
  | BgColor8bit (color : Nat) : SgrColor
  | BgColor24bit (rgb : Nat × Nat × Nat) : SgrColor

/-- The SGR extended-color trait method (src/csi.rs lines 251-261). -/
def sgr_color : SgrColor → String
  | .FgColor8bit color => csiStr ("38;5;" ++ toString color ++ "m")
  | .FgColor24bit (r, g, b) =>
    csiStr ("38;2;" ++ toString r ++ ";" ++ toString g ++ ";" ++ toString b ++ "m")
  | .BgColor8bit color => csiStr ("48;5;" ++ toString color ++ "m")
  | .BgColor24bit (r, g, b) =>
    csiStr ("48;2;" ++ toString r ++ ";" ++ toString g ++ ";" ++ toString b ++ "m")

/-- `SgrCode` (src/csi.rs lines 28-106): the fixed table of select-graphic-
rendition codes. -/
inductive SgrCode where
  | Normal | Bold | Faint | Italic | Underline | SlowBlink | RapidBlink
  | Inverse | Invisible | Strikethrough | PrimaryFont
  | AltFont1 | AltFont2 | AltFont3 | AltFont4 | AltFont5 | AltFont6
  | AltFont7 | AltFont8 | AltFont9
  | DoubleUnderline | BoldFaintOff | ItalicOff | UnderlineOff | Steady
  | Positive | Visible | StrikethroughOff
  | FgColorBlack | FgColorRed | FgColorGreen | FgColorYellow | FgColorBlue
  | FgColorMagenta | FgColorCyan | FgColorWhite | FgColorDefault
  | BgColorBlack | BgColorRed | BgColorGreen | BgColorYellow | BgColorBlue
  | BgColorMagenta | BgColorCyan | BgColorWhite | BgColorDefault
  | Frame | Encircle | Overline | FrameEncircleOff | OverlineOff
  | RightSideLine | RightSideDoublLine | LeftSideLine | LeftSideDoublLine
  | DoubleStrikethrough | LineOff
  | FgColorBrightBlack | FgColorBrightRed | FgColorBrightGreen
  | FgColorBrightYellow | FgColorBrightBlue | FgColorBrightMagenta
  | FgColorBrightCyan | FgColorBrightWhite
  | BgColorBrightBlack | BgColorBrightRed | BgColorBrightGreen
  | BgColorBrightYellow | BgColorBrightBlue | BgColorBrightMagenta
  | BgColorBrightCyan | BgColorBrightWhite
deriving DecidableEq

/-- Discriminant of `SgrCode` (`c as i32`, always nonnegative). -/
def SgrCode.toNat : SgrCode → Nat
  | .Normal => 0
  | .Bold => 1
  | .Faint => 2
  | .Italic => 3
  | .Underline => 4
  | .SlowBlink => 5
  | .RapidBlink => 6
  | .Inverse => 7
  | .Invisible => 8
  | .Strikethrough => 9
  | .PrimaryFont => 10
  | .AltFont1 => 11
  | .AltFont2 => 12
  | .AltFont3 => 13
  | .AltFont4 => 14
  | .AltFont5 => 15
  | .AltFont6 => 16
  | .AltFont7 => 17
  | .AltFont8 => 18
  | .AltFont9 => 19
  | .DoubleUnderline => 21
  | .BoldFaintOff => 22
  | .ItalicOff => 23
  | .UnderlineOff => 24
  | .Steady => 25
  | .Positive => 27
  | .Visible => 28
  | .StrikethroughOff => 29
  | .FgColorBlack => 30
  | .FgColorRed => 31
  | .FgColorGreen => 32
  | .FgColorYellow => 33
  | .FgColorBlue => 34
  | .FgColorMagenta => 35
  | .FgColorCyan => 36
  | .FgColorWhite => 37
  | .FgColorDefault => 39
  | .BgColorBlack => 40
  | .BgColorRed => 41
  | .BgColorGreen => 42
  | .BgColorYellow => 43
  | .BgColorBlue => 44
  | .BgColorMagenta => 45
  | .BgColorCyan => 46
  | .BgColorWhite => 47
  | .BgColorDefault => 49
  | .Frame => 51
  | .Encircle => 52
  | .Overline => 53
  | .FrameEncircleOff => 54
  | .OverlineOff => 55
  | .RightSideLine => 60
  | .RightSideDoublLine => 61
  | .LeftSideLine => 62
  | .LeftSideDoublLine => 63
  | .DoubleStrikethrough => 64
  | .LineOff => 65
  | .FgColorBrightBlack => 90
  | .FgColorBrightRed => 91
  | .FgColorBrightGreen => 92
  | .FgColorBrightYellow => 93
  | .FgColorBrightBlue => 94
  | .FgColorBrightMagenta => 95
  | .FgColorBrightCyan => 96
  | .FgColorBrightWhite => 97
  | .BgColorBrightBlack => 100
  | .BgColorBrightRed => 101
  | .BgColorBrightGreen => 102
  | .BgColorBrightYellow => 103
  | .BgColorBrightBlue => 104
  | .BgColorBrightMagenta => 105
  | .BgColorBrightCyan => 106
  | .BgColorBrightWhite => 107

/-- The SGR trait method (src/csi.rs lines 247-250): the numeric code
(`c as i32`) is emitted verbatim before the final byte `m`. -/
def sgr (c : SgrCode) : String := csiStr (toString c.toNat ++ "m")

/-- One fallible write to the output sink: `write_fmt` either accepts the
whole string or fails, and the trait methods propagate the failure with
`?` and otherwise return `Ok(())`. -/
def writeOut (sinkOk : Bool) (s : String) : Except Unit String :=
  match sinkOk with
  | true => Except.ok s
  | false => Except.error ()

lemma _nz_pos (n : Nat) : 1 ≤ _nz n := by
  unfold _nz; split <;> omega

lemma _nz_of_pos {n : Nat} (h : 1 ≤ n) : _nz n = n := by
  unfold _nz; split <;> omega

/-- C4: every repeat-count operation normalizes a zero argument to 1 and
emits an argument `n ≥ 1` verbatim; the emitted count is always at least
1, so a zero-count sequence is never written. -/
theorem repeat_counts_normalized (n m : Nat) :
    (1 ≤ n →
      cuu n = csiStr (toString n ++ "A")
      ∧ cud n = csiStr (toString n ++ "B")
      ∧ cuf n = csiStr (toString n ++ "C")
      ∧ cub n = csiStr (toString n ++ "D")
      ∧ cnl n = csiStr (toString n ++ "E")
      ∧ cpl n = csiStr (toString n ++ "F")
      ∧ cha n = csiStr (toString n ++ "G")
      ∧ su n = csiStr (toString n ++ "S")
      ∧ sd n = csiStr (toString n ++ "T")
      ∧ (1 ≤ m → cup n m = csiStr (toString n ++ ";" ++ toString m ++ "H")))
    ∧ (cuu 0 = "\x1b[1A" ∧ cud 0 = "\x1b[1B" ∧ cuf 0 = "\x1b[1C"
      ∧ cub 0 = "\x1b[1D" ∧ cnl 0 = "\x1b[1E" ∧ cpl 0 = "\x1b[1F"
      ∧ cha 0 = "\x1b[1G" ∧ su 0 = "\x1b[1S" ∧ sd 0 = "\x1b[1T"
      ∧ cup 0 m = cup 1 m ∧ cup n 0 = cup n 1)
    ∧ (1 ≤ _nz n ∧ 1 ≤ _nz m
      ∧ cup n m = csiStr (toString (_nz n) ++ ";" ++ toString (_nz m) ++ "H")) := by
  refine ⟨fun h => ?_, ?_, _nz_pos n, _nz_pos m, rfl⟩
  · have hn := _nz_of_pos h
    refine ⟨?_, ?_, ?_, ?_, ?_, ?_, ?_, ?_, ?_, fun hm => ?_⟩
    · simp only [cuu, hn]
    · simp only [cud, hn]
    · simp only [cuf, hn]
    · simp only [cub, hn]
    · simp only [cnl, hn]
    · simp only [cpl, hn]
    · simp only [cha, hn]
    · simp only [su, hn]
    · simp only [sd, hn]
    · simp only [cup, hn, _nz_of_pos hm]
  · exact ⟨by decide, by decide, by decide, by decide, by decide, by decide,
      by decide, by decide, by decide, rfl, rfl⟩

/-- Witness for C4 at `n = 3`, `m = 5` and at zero arguments. -/
theorem repeat_counts_normalized_witness :
    cuu 3 = csiStr (toString 3 ++ "A")
    ∧ cup 3 5 = csiStr (toString 3 ++ ";" ++ toString 5 ++ "H")
    ∧ cuu 0 = "\x1b[1A" := by
  have h := repeat_counts_normalized 3 5
  exact ⟨(h.1 (by decide)).1, (h.1 (by decide)).2.2.2.2.2.2.2.2.2 (by decide),
    h.2.1.1⟩

/-- C5 counterexample: the cursor-style index 0 lies outside 1..6, yet
`decscusr`'s guard is `n <= 6`, so at index 0 the code writes `ESC[0 q`
rather than nothing. -/
theorem decscusr_zero_not_noop :
    ¬ (1 ≤ 0) ∧ decscusrSeq 0 = "\x1b[0 q" ∧ decscusrSeq 0 ≠ "" := by
  decide

/-- C5 amended: erase-display modes above 3 and erase-line modes above 2
write nothing; the cursor-style guard is `n ≤ 6`, so indices above 6 write
nothing while index 0 — also outside 1..6 — emits `ESC[0 q`; in-range
values are emitted verbatim (no normalization), in particular
`erase_display(0)` emits `ESC[0J` and `erase_display(4)` nothing. -/
theorem out_of_range_params (n : Nat) :
    (4 ≤ n → edSeq n = "")
    ∧ (3 ≤ n → elSeq n = "")
    ∧ (7 ≤ n → decscusrSeq n = "")
    ∧ (n ≤ 3 → edSeq n = csiStr (toString n ++ "J"))
    ∧ (n ≤ 2 → elSeq n = csiStr (toString n ++ "K"))
    ∧ (n ≤ 6 → decscusrSeq n = csiStr (toString n ++ " q"))
    ∧ edSeq 0 = "\x1b[0J" ∧ edSeq 4 = "" ∧ decscusrSeq 0 = "\x1b[0 q" := by
  refine ⟨fun h => ?_, fun h => ?_, fun h => ?_, fun h => ?_, fun h => ?_,
    fun h => ?_, by decide, by decide, by decide⟩
  · simp only [edSeq]; rw [if_neg (by omega)]
  · simp only [elSeq]; rw [if_neg (by omega)]
  · simp only [decscusrSeq]; rw [if_neg (by omega)]
  · simp only [edSeq]; rw [if_pos (by omega)]
  · simp only [elSeq]; rw [if_pos (by omega)]
  · simp only [decscusrSeq]; rw [if_pos (by omega)]

/-- Witness for the amended C5 at mode 7 (out of range everywhere) and
mode 2 (in range everywhere). -/
theorem out_of_range_params_witness :
    (edSeq 7 = "" ∧ elSeq 7 = "" ∧ decscusrSeq 7 = "")
    ∧ edSeq 2 = csiStr (toString 2 ++ "J") := by
  have h7 := out_of_range_params 7
  have h2 := out_of_range_params 2
  exact ⟨⟨h7.1 (by decide), h7.2.1 (by decide), h7.2.2.1 (by decide)⟩,
    h2.2.2.2.1 (by decide)⟩

/-- C6: each formatting operation writes exactly the table's sequence
`ESC [ <params> <final byte>`: `cup` emits both normalized coordinates
separated by `;` before `H`, `decscusr` has the embedded space before
`q`, the extended colors emit `38;5;i`, `38;2;r;g;b` (foreground) and the
`48`-prefixed background forms with the raw component values, the simple
sequences and verbatim-parameter modes match their table rows, and each
operation returns the written sequence on success or propagates the
sink's failure. -/
theorem formatting_matches_table (n i r g b : Nat) :
    (∀ row col : Nat,
      cup row col = csiStr (toString (_nz row) ++ ";" ++ toString (_nz col) ++ "H"))
    ∧ (∀ s : DecscusrStyle, decscusr s = csiStr (toString s.toNat ++ " q"))
    ∧ sgr_color (SgrColor.FgColor8bit i) = csiStr ("38;5;" ++ toString i ++ "m")
    ∧ sgr_color (SgrColor.FgColor24bit (r, g, b))
        = csiStr ("38;2;" ++ toString r ++ ";" ++ toString g ++ ";" ++ toString b ++ "m")
    ∧ sgr_color (SgrColor.BgColor8bit i) = csiStr ("48;5;" ++ toString i ++ "m")
    ∧ sgr_color (SgrColor.BgColor24bit (r, g, b))
        = csiStr ("48;2;" ++ toString r ++ ";" ++ toString g ++ ";" ++ toString b ++ "m")
    ∧ scp = "\x1b[s" ∧ rcp = "\x1b[u"
    ∧ sm n = csiStr (toString n ++ "h") ∧ rm n = csiStr (toString n ++ "l")
    ∧ (∀ c : SgrCode, sgr c = csiStr (toString c.toNat ++ "m"))
    ∧ cuu n = csiStr (toString (_nz n) ++ "A")
    ∧ cud n = csiStr (toString (_nz n) ++ "B")
    ∧ cuf n = csiStr (toString (_nz n) ++ "C")
    ∧ cub n = csiStr (toString (_nz n) ++ "D")
    ∧ cnl n = csiStr (toString (_nz n) ++ "E")
    ∧ cpl n = csiStr (toString (_nz n) ++ "F")
    ∧ cha n = csiStr (toString (_nz n) ++ "G")
    ∧ su n = csiStr (toString (_nz n) ++ "S")
    ∧ sd n = csiStr (toString (_nz n) ++ "T")
    ∧ (∀ e : EdClear, ed e = csiStr (toString e.toNat ++ "J"))
    ∧ (∀ e : ElClear, el e = csiStr (toString e.toNat ++ "K"))
    ∧ dsrQueryStr = "\x1b[6n"
    ∧ (∀ s : String, writeOut true s = Except.ok s)
    ∧ (∀ s : String, writeOut false s = Except.error ()) := by
  refine ⟨fun row col => rfl, fun s => ?_, rfl, rfl, rfl, rfl, by decide, by decide,
    rfl, rfl, fun c => rfl, rfl, rfl, rfl, rfl, rfl, rfl, rfl, rfl, rfl,
    fun e => ?_, fun e => ?_, by decide, fun s => rfl, fun s => rfl⟩
  · cases s <;> rfl
  · cases e <;> rfl
  · cases e <;> rfl

/-- C9: the argument types `EdClear`, `ElClear` and `DecscusrStyle` are
closed enumerations whose discriminants always satisfy the in-range
guards (`≤ 3`, `≤ 2`, `≤ 6`), so the silent no-op branch is unreachable
and every well-typed call writes its escape sequence. -/
theorem enum_args_make_noop_unreachable :
    (∀ e : EdClear, e.toNat ≤ 3 ∧ ed e = csiStr (toString e.toNat ++ "J") ∧ ed e ≠ "")
    ∧ (∀ e : ElClear, e.toNat ≤ 2 ∧ el e = csiStr (toString e.toNat ++ "K") ∧ el e ≠ "")
    ∧ (∀ s : DecscusrStyle, 1 ≤ s.toNat ∧ s.toNat ≤ 6
        ∧ decscusr s = csiStr (toString s.toNat ++ " q") ∧ decscusr s ≠ "") := by
  refine ⟨fun e => ?_, fun e => ?_, fun s => ?_⟩
  · cases e <;> exact ⟨by decide, by decide, by decide⟩
  · cases e <;> exact ⟨by decide, by decide, by decide⟩
  · cases s <;> exact ⟨by decide, by decide, by decide, by decide⟩

/-- A byte the reply loop reacts to: a decimal digit, `;` or `R`. -/
def relevantByte (b : Nat) : Bool :=
  decide (0x30 ≤ b ∧ b ≤ 0x39) || decide (b = 0x3b) || decide (b = 0x52)

lemma dsrLoop_filter (input : List Nat) :
    ∀ r c t, (dsrLoop input r c t).2 = (dsrLoop (input.filter relevantByte) r c t).2 := by
  induction input with
  | nil => intro r c t; rfl
  | cons b bs ih =>
    intro r c t
    by_cases hd : 0x30 ≤ b ∧ b ≤ 0x39
    · have hrel : relevantByte b = true := by simp [relevantByte, hd]
      simp only [List.filter_cons, hrel, if_pos, dsrLoop, if_pos hd]
      exact ih _ _ _
    · by_cases hsep : b = 0x3b
      · have hrel : relevantByte b = true := by simp [relevantByte, hsep]
        simp only [List.filter_cons, hrel, if_pos, dsrLoop, if_neg hd, if_pos hsep]
        exact ih _ _ _
      · by_cases hR : b = 0x52
        · have hrel : relevantByte b = true := by simp [relevantByte, hR]
          simp only [List.filter_cons, hrel, if_pos, dsrLoop, if_neg hd, if_neg hsep,
            if_pos hR]
        · have hrel : ¬ relevantByte b = true := by simp [relevantByte, hd, hsep, hR]
          simp only [List.filter_cons, if_neg hrel, dsrLoop, if_neg hd, if_neg hsep,
            if_neg hR]
          exact ih _ _ _

/-- C7: the `(row, col)` result of `dsr` depends only on the subsequence
of digit, `;` and `R` bytes: two input streams whose relevant-byte
subsequences agree — in particular, a stream and the same stream with
junk bytes (such as the reply's leading `ESC [`) inserted anywhere —
yield the same result. -/
theorem dsr_ignores_junk_bytes (xs ys : List Nat)
    (h : xs.filter relevantByte = ys.filter relevantByte) :
    (dsr true true xs).2 = (dsr true true ys).2 := by
  show some (dsrLoop xs 0 0 0).2 = some (dsrLoop ys 0 0 0).2
  rw [dsrLoop_filter xs 0 0 0, dsrLoop_filter ys 0 0 0, h]

/-- Witness for C7: the full reply `ESC[3;4R` and the bare `3;4R` give
the same result. -/
theorem dsr_ignores_junk_bytes_witness :
    (dsr true true [0x1b, 0x5b, 0x33, 0x3b, 0x34, 0x52]).2
      = (dsr true true [0x33, 0x3b, 0x34, 0x52]).2 :=
  dsr_ignores_junk_bytes _ _ (by decide)

/-- A decimal digit byte. -/
def isDigitByte (b : Nat) : Bool := decide (0x30 ≤ b ∧ b ≤ 0x39)

/-- The accumulator of the reply loop run across a digit string, in
`usize` arithmetic (reduced modulo `2 ^ 64` at each step). -/
def decAccum (t : Nat) : List Nat → Nat
  | [] => t
  | b :: bs => decAccum ((t * 10 + (b - 0x30)) % usizeMod) bs

/-- Value of a digit string under the loop's `usize` accumulator. -/
def decValue (ds : List Nat) : Nat := decAccum 0 ds

/-- Exact (unbounded) decimal accumulator. -/
def decExactAcc (t : Nat) : List Nat → Nat
  | [] => t
  | b :: bs => decExactAcc (t * 10 + (b - 0x30)) bs

/-- Exact decimal value denoted by a digit string. -/
def decExact (ds : List Nat) : Nat := decExactAcc 0 ds

lemma dsrLoop_digits (ds : List Nat) (hds : ∀ x ∈ ds, isDigitByte x = true) :
    ∀ rest r c t,
      (dsrLoop (ds ++ rest) r c t).2 = (dsrLoop rest r c (decAccum t ds)).2 := by
  induction ds with
  | nil => intro rest r c t; rfl
  | cons b bs ih =>
    intro rest r c t
    have hb : 0x30 ≤ b ∧ b ≤ 0x39 := by
      have := hds b (List.mem_cons_self b bs)
      simpa [isDigitByte] using this
    have hbs : ∀ x ∈ bs, isDigitByte x = true :=
      fun x hx => hds x (List.mem_cons_of_mem b hx)
    rw [List.cons_append]
    have hstep : (dsrLoop (b :: (bs ++ rest)) r c t).2
        = (dsrLoop (bs ++ rest) r c ((t * 10 + (b - 0x30)) % usizeMod)).2 := by
      simp only [dsrLoop, if_pos hb]
    rw [hstep, show decAccum t (b :: bs)
      = decAccum ((t * 10 + (b - 0x30)) % usizeMod) bs from rfl]
    exact ih hbs rest r c _

lemma dsrLoop_sep (rest : List Nat) (r c t : Nat) :
    (dsrLoop (0x3b :: rest) r c t).2 = (dsrLoop rest t c 0).2 := rfl

lemma dsrLoop_term (rest : List Nat) (r c t : Nat) :
    (dsrLoop (0x52 :: rest) r c t).2 = (r, t) := rfl

/-- C8: the parser does not stop the row at the first `;` — with digit
segments `a`, `b`, `c` in the stream `a;b;cR`, the second `;` overwrites
the row, so the result is the last two segments `(b, c)`. -/
theorem dsr_last_two_segments (a b c : List Nat)
    (ha : ∀ x ∈ a, isDigitByte x = true) (hb : ∀ x ∈ b, isDigitByte x = true)
    (hc : ∀ x ∈ c, isDigitByte x = true) :
    (dsr true true (a ++ [0x3b] ++ b ++ [0x3b] ++ c ++ [0x52])).2
      = some (decValue b, decValue c) := by
  show some (dsrLoop (a ++ [0x3b] ++ b ++ [0x3b] ++ c ++ [0x52]) 0 0 0).2 = _
  have hl : a ++ [0x3b] ++ b ++ [0x3b] ++ c ++ [0x52]
      = a ++ (0x3b :: (b ++ (0x3b :: (c ++ [0x52])))) := by
    simp [List.append_assoc]
  rw [hl, dsrLoop_digits a ha, dsrLoop_sep, dsrLoop_digits b hb, dsrLoop_sep,
    dsrLoop_digits c hc, dsrLoop_term]
  rfl

/-- Witness for C8: the stream `1;2;3R` yields `(2, 3)`, the last two
segments, not `(1, 3)`. -/
theorem dsr_last_two_segments_witness :
    (dsr true true [0x31, 0x3b, 0x32, 0x3b, 0x33, 0x52]).2 = some (2, 3) := by
  have h := dsr_last_two_segments [0x31] [0x32] [0x33] (by decide) (by decide)
    (by decide)
  exact h.trans (by decide)

lemma decAccum_mod (ds : List Nat) :
    ∀ t, decAccum (t % usizeMod) ds = decExactAcc t ds % usizeMod := by
  induction ds with
  | nil => intro t; rfl
  | cons b bs ih =>
    intro t
    show decAccum (((t % usizeMod) * 10 + (b - 0x30)) % usizeMod) bs
      = decExactAcc (t * 10 + (b - 0x30)) bs % usizeMod
    have hmod : (t % usizeMod) * 10 + (b - 0x30) ≡ t * 10 + (b - 0x30) [MOD usizeMod] :=
      Nat.ModEq.add_right _ (Nat.ModEq.mul_right _ (Nat.mod_modEq t usizeMod))
    rw [show (((t % usizeMod) * 10 + (b - 0x30)) % usizeMod)
        = ((t * 10 + (b - 0x30)) % usizeMod) from hmod]
    exact ih _

lemma decValue_eq_mod (ds : List Nat) : decValue ds = decExact ds % usizeMod := by
  have h := decAccum_mod ds 0
  simpa [decValue, decExact] using h

/-- C10: across a well-separated reply `row;colR`, the parsed pair is the
exact decimal value of each digit string reduced modulo `2 ^ 64` (the
`usize` word of a 64-bit target): digit strings below `2 ^ 64` parse
exactly, larger ones are not rejected but wrap. -/
theorem dsr_accumulator_wraps (rowD colD : List Nat)
    (hr : ∀ x ∈ rowD, isDigitByte x = true)
    (hc : ∀ x ∈ colD, isDigitByte x = true) :
    (dsr true true (rowD ++ [0x3b] ++ colD ++ [0x52])).2
      = some (decExact rowD % usizeMod, decExact colD % usizeMod)
    ∧ (decExact rowD < usizeMod → decExact colD < usizeMod →
      (dsr true true (rowD ++ [0x3b] ++ colD ++ [0x52])).2
        = some (decExact rowD, decExact colD)) := by
  have key : (dsr true true (rowD ++ [0x3b] ++ colD ++ [0x52])).2
      = some (decValue rowD, decValue colD) := by
    show some (dsrLoop (rowD ++ [0x3b] ++ colD ++ [0x52]) 0 0 0).2 = _
    have hl : rowD ++ [0x3b] ++ colD ++ [0x52]
        = rowD ++ (0x3b :: (colD ++ [0x52])) := by
      simp [List.append_assoc]
    rw [hl, dsrLoop_digits rowD hr, dsrLoop_sep, dsrLoop_digits colD hc,
      dsrLoop_term]
    rfl
  refine ⟨?_, fun h1 h2 => ?_⟩
  · rw [key, decValue_eq_mod, decValue_eq_mod]
  · rw [key, decValue_eq_mod, decValue_eq_mod, Nat.mod_eq_of_lt h1,
      Nat.mod_eq_of_lt h2]

/-- Witness for C10: the row digit string `18446744073709551616`
(`2 ^ 64`) wraps to 0 while the column `5` parses exactly. -/
theorem dsr_accumulator_wraps_witness :
    (dsr true true ([0x31, 0x38, 0x34, 0x34, 0x36, 0x37, 0x34, 0x34, 0x30, 0x37,
        0x33, 0x37, 0x30, 0x39, 0x35, 0x35, 0x31, 0x36, 0x31, 0x36]
      ++ [0x3b] ++ [0x35] ++ [0x52])).2 = some (0, 5) := by
  have h := (dsr_accumulator_wraps
    [0x31, 0x38, 0x34, 0x34, 0x36, 0x37, 0x34, 0x34, 0x30, 0x37,
      0x33, 0x37, 0x30, 0x39, 0x35, 0x35, 0x31, 0x36, 0x31, 0x36]
    [0x35] (by decide) (by decide)).1
  exact h.trans (by decide)

end AnsiCsi
